import Mathlib

/-!
Verification development for the algo-trading dashboard repository.

The repository's executable logic lives in its React frontend:
the `Portfolio` component (hard-coded portfolio state and P&L helpers),
the `Chart` component's `computeSMA` indicator, and the `Backtest`
component's `runBacktest`, which builds a results object (equity curve,
drawdown curve and performance metrics) from a trade list by a fold.

JavaScript numbers are modelled by `ℚ` for ordinary arithmetic; the
spots where the code can produce `Infinity` or `NaN` (division by zero
followed by `Math.abs` and `|| 0`, `Math.min` of an empty spread) are
modelled by the `JsNum` type, which carries the IEEE special values
explicitly.
-/

/-- Model of a JavaScript number restricted to the values the embedded
code can actually produce: a finite (exact rational) value, the two
infinities, or `NaN`. -/
inductive JsNum where
  | fin (q : ℚ)
  | posInf
  | negInf
  | nan
deriving DecidableEq

/-- JavaScript division `a / b` on finite operands: finite quotient when
`b ≠ 0`, a signed infinity when `b = 0` and `a ≠ 0`, and `NaN` for `0 / 0`. -/
def jsDiv (a b : ℚ) : JsNum :=
  if b = 0 then
    if 0 < a then JsNum.posInf else if a < 0 then JsNum.negInf else JsNum.nan
  else JsNum.fin (a / b)

/-- JavaScript `Math.abs`. -/
def jsAbs : JsNum → JsNum
  | JsNum.fin q => JsNum.fin |q|
  | JsNum.posInf => JsNum.posInf
  | JsNum.negInf => JsNum.posInf
  | JsNum.nan => JsNum.nan

/-- JavaScript `x || 0`: `NaN` and `0` are falsy and give `0`; any other
number is returned unchanged. -/
def jsOrZero : JsNum → JsNum
  | JsNum.nan => JsNum.fin 0
  | JsNum.fin q => if q = 0 then JsNum.fin 0 else JsNum.fin q
  | x => x

/-- JavaScript multiplication of a possibly non-finite number by a finite
constant. -/
def jsMulFin (x : JsNum) (c : ℚ) : JsNum :=
  match x with
  | JsNum.fin q => JsNum.fin (q * c)
  | JsNum.posInf => if 0 < c then JsNum.posInf else if c < 0 then JsNum.negInf else JsNum.nan
  | JsNum.negInf => if 0 < c then JsNum.negInf else if c < 0 then JsNum.posInf else JsNum.nan
  | JsNum.nan => JsNum.nan

/-- JavaScript `Math.min(...l)`: `Infinity` on the empty spread, the least
element otherwise. -/
def jsMin (l : List ℚ) : JsNum :=
  match l with
  | [] => JsNum.posInf
  | x :: xs => JsNum.fin (xs.foldl min x)

/-- Trade action, `'BUY'` or `'SELL'` in the source. -/
inductive TradeAction where
  | BUY
  | SELL
deriving DecidableEq

/-- One entry of the `trades` array built in `runBacktest`
(src/frontend/src/components/Backtest.jsx): `{date, action, price,
quantity, pnl}`. -/
structure Trade where
  date : String
  action : TradeAction
  price : ℚ
  quantity : ℚ
  pnl : ℚ
deriving DecidableEq

/-- The hard-coded trade list of `runBacktest` (Backtest.jsx lines 46-54). -/
def mockTrades : List Trade :=
  [ ⟨"2024-01-15", TradeAction.BUY, 150, 100, 0⟩,
    ⟨"2024-01-20", TradeAction.SELL, 155, 100, 500⟩,
    ⟨"2024-02-01", TradeAction.BUY, 152, 100, 0⟩,
    ⟨"2024-02-10", TradeAction.SELL, 148, 100, -400⟩,
    ⟨"2024-03-01", TradeAction.BUY, 145, 100, 0⟩,
    ⟨"2024-03-15", TradeAction.SELL, 160, 100, 1500⟩ ]

/-- One iteration of the `trades.forEach` loop in `runBacktest`
(Backtest.jsx lines 60-66) records, for its trade, the updated `equity`,
the updated running `maxEquity`, and the `drawdown` value pushed to
`drawdownData`. -/
structure CurveStep where
  date : String
  equity : ℚ
  maxEquity : ℚ
  drawdown : ℚ
deriving DecidableEq

/-- The `trades.forEach` fold of `runBacktest` (Backtest.jsx lines 56-66):
starting from accumulators `equity` and `maxEquity`, each trade performs
`equity += trade.pnl; maxEquity = Math.max(maxEquity, equity);
drawdown = ((equity - maxEquity) / maxEquity) * 100` and pushes one point
on each curve. -/
def runCurve (equity maxEquity : ℚ) : List Trade → List CurveStep
  | [] => []
  | t :: ts =>
    let e := equity + t.pnl
    let m := max maxEquity e
    ⟨t.date, e, m, (e - m) / m * 100⟩ :: runCurve e m ts

/-- The loop of Backtest.jsx lines 56-66 run from its initial accumulators
`equity = 100000`, `maxEquity = 100000`. -/
def backtestSteps (trades : List Trade) : List CurveStep :=
  runCurve 100000 100000 trades

/-- One entry `{date, equity}` of `equityData`. -/
structure EquityPoint where
  date : String
  equity : ℚ
deriving DecidableEq

/-- One entry `{date, drawdown}` of `drawdownData`. -/
structure DrawdownPoint where
  date : String
  drawdown : ℚ
deriving DecidableEq

/-- The `equityData` array pushed by the loop (Backtest.jsx line 64). -/
def equityData (trades : List Trade) : List EquityPoint :=
  (backtestSteps trades).map (fun s => ⟨s.date, s.equity⟩)

/-- The `drawdownData` array pushed by the loop (Backtest.jsx line 65). -/
def drawdownData (trades : List Trade) : List DrawdownPoint :=
  (backtestSteps trades).map (fun s => ⟨s.date, s.drawdown⟩)

/-- The final value of the `equity` accumulator, used as `finalCapital`
(Backtest.jsx line 75): `equity += trade.pnl` folded from `100000`. -/
def finalEquity (trades : List Trade) : ℚ :=
  trades.foldl (fun e t => e + t.pnl) 100000

/-- The `mockResults` object built by `runBacktest` (Backtest.jsx lines
68-91).  Fields that merely echo the UI selections (`symbol`, `strategy`,
`period`, `startDate`, `endDate`) are omitted; every computed field is
kept.  `sharpeRatio` is typed `Option ℚ` (a JS number-or-null slot); the
code assigns the literal `1.45`. -/
structure BacktestResults where
  initialCapital : ℚ
  finalCapital : ℚ
  totalReturn : ℚ
  totalReturnPercentage : ℚ
  sharpeRatio : Option ℚ
  maxDrawdown : JsNum
  totalTrades : ℕ
  winningTrades : ℕ
  losingTrades : ℕ
  winRate : JsNum
  averageWin : JsNum
  averageLoss : JsNum
  profitFactor : JsNum
  trades : List Trade
  equityData : List EquityPoint
  drawdownData : List DrawdownPoint

/-- The construction of `mockResults` in `runBacktest` (Backtest.jsx lines
56-91) as a function of the trade list it folds over; `runBacktest` itself
applies it to the hard-coded `mockTrades`. -/
def mkBacktestResults (trades : List Trade) : BacktestResults :=
  let equity := finalEquity trades
  let wins := trades.filter (fun t => 0 < t.pnl)
  let losses := trades.filter (fun t => t.pnl < 0)
  { initialCapital := 100000
    finalCapital := equity
    totalReturn := equity - 100000
    totalReturnPercentage := (equity - 100000) / 100000 * 100
    sharpeRatio := some (29 / 20)
    maxDrawdown := jsMin ((drawdownData trades).map (fun d => d.drawdown))
    totalTrades := trades.length
    winningTrades := wins.length
    losingTrades := losses.length
    winRate := jsMulFin (jsDiv (wins.length : ℚ) (trades.length : ℚ)) 100
    averageWin := jsOrZero (jsDiv ((wins.map (fun t => t.pnl)).sum) (wins.length : ℚ))
    averageLoss := jsOrZero (jsDiv ((losses.map (fun t => t.pnl)).sum) (losses.length : ℚ))
    profitFactor :=
      jsOrZero (jsAbs (jsDiv ((wins.map (fun t => t.pnl)).sum) ((losses.map (fun t => t.pnl)).sum)))
    trades := trades
    equityData := equityData trades
    drawdownData := drawdownData trades }

/-- The result `runBacktest` actually stores: the construction applied to
the hard-coded trade list. -/
def runBacktestResults : BacktestResults :=
  mkBacktestResults mockTrades

/-- One entry of the `positions` array of the `Portfolio` component
(src/unnamed/part_003 lines 14-18). -/
structure Position where
  symbol : String
  shares : ℚ
  avgPrice : ℚ
  currentPrice : ℚ
deriving DecidableEq

/-- The `portfolio` state object of the `Portfolio` component
(src/unnamed/part_003 lines 11-19). -/
structure PortfolioState where
  totalValue : ℚ
  cash : ℚ
  positions : List Position
deriving DecidableEq

/-- The initial (and only) `portfolio` state the component renders
(src/unnamed/part_003 lines 11-19). -/
def initialPortfolio : PortfolioState :=
  ⟨100000, 50000,
    [ ⟨"AAPL", 100, 150, 24529 / 100⟩,
      ⟨"MSFT", 50, 300, 825 / 2⟩,
      ⟨"GOOGL", 25, 2500, 2780⟩ ]⟩

/-- `calculatePnL(shares, avgPrice, currentPrice)` of the `Portfolio`
component (src/unnamed/part_003 lines 21-23). -/
def calculatePnL (shares avgPrice currentPrice : ℚ) : ℚ :=
  (currentPrice - avgPrice) * shares

/-- `calculateTotalPnL()` of the `Portfolio` component (src/unnamed/part_003
lines 25-29): a `reduce` over the positions. -/
def calculateTotalPnL (p : PortfolioState) : ℚ :=
  p.positions.foldl
    (fun total pos => total + calculatePnL pos.shares pos.avgPrice pos.currentPrice) 0

/-- The market value of the positions as the component itself computes per
position (`currentValue = position.shares * position.currentPrice`,
src/unnamed/part_003 lines 36 and 102), summed over the positions. -/
def positionsValue (p : PortfolioState) : ℚ :=
  (p.positions.map (fun pos => pos.shares * pos.currentPrice)).sum

/-- One bar object of the historical data the `Chart` component receives;
the component reads the fields `Datetime`, `Close`, `High`, `Low`,
`Volume` (LiveFeed.jsx / Chart component). -/
structure Bar where
  Datetime : String
  Close : ℚ
  High : ℚ
  Low : ℚ
  Volume : ℚ
deriving DecidableEq

/-- One element of the array returned by `computeSMA`: the spread copy
`{...d, sma}` of an input bar together with the added `sma` field, which
is `null` (`none`) on the first `period - 1` entries. -/
structure SmaPoint where
  bar : Bar
  sma : Option ℚ
deriving DecidableEq

/-- The body of the `data.map((d, i) => ...)` in `computeSMA` (Chart
component, lines 157-164 of the concatenated LiveFeed.jsx source),
threaded with the explicit index `i` of the map callback. -/
def computeSMAAux (data : List Bar) (period : ℕ) : ℕ → List Bar → List SmaPoint
  | _, [] => []
  | i, d :: rest =>
    (if i < period - 1 then ⟨d, none⟩
     else
       ⟨d, some (((((data.drop (i + 1 - period)).take period).map (fun b => b.Close)).sum)
                  / (period : ℚ))⟩)
    :: computeSMAAux data period (i + 1) rest

/-- `computeSMA(data, period)` (Chart component): maps each bar `d` at index
`i` to `{...d, sma: null}` when `i < period - 1`, and otherwise to
`{...d, sma}` with `sma` the sum of the `Close` fields of
`data.slice(i - period + 1, i + 1)` divided by `period`. -/
def computeSMA (data : List Bar) (period : ℕ) : List SmaPoint :=
  computeSMAAux data period 0 data

/-- The equity value at curve index `i`, written in the claim's closed
form: initial capital plus the prefix sum of the realized P&L of trades
`0 .. i`. -/
def specEquityAt (trades : List Trade) (i : ℕ) : ℚ :=
  100000 + ((trades.map (fun t => t.pnl)).take (i + 1)).sum

/-- The running peak at curve index `i`, written in the claim's closed
form: the maximum of the initial capital `100000` and the equity values at
indices `0 .. i`. -/
def specPeakAt (trades : List Trade) (i : ℕ) : ℚ :=
  ((List.range (i + 1)).map (specEquityAt trades)).foldl max 100000

/-- Modelled from the spec: the per-period returns of an equity curve,
`(equity(t+1) - equity(t)) / equity(t)` (the performance analyzer of the
specified engine has no implementation under src, only the constant
`sharpeRatio: 1.45` in the frontend). -/
def specPeriodReturns : List ℚ → List ℚ
  | x :: y :: rest => (y - x) / x :: specPeriodReturns (y :: rest)
  | _ => []

/-- Modelled from the spec: the arithmetic mean of a list of returns. -/
def specMean (l : List ℚ) : ℚ :=
  l.sum / l.length

/-- Modelled from the spec: the population variance of a list of returns;
the spec's `stdev = 0` condition is exactly `variance = 0`. -/
def specPopVariance (l : List ℚ) : ℚ :=
  ((l.map (fun x => (x - specMean l) ^ 2)).sum) / l.length

/-- A three-bar input series with closes 1, 2, 4, used to instantiate the
indicator theorems on concrete data. -/
def smaBars : List Bar :=
  [⟨"a", 1, 1, 1, 1⟩, ⟨"b", 2, 2, 2, 2⟩, ⟨"c", 4, 4, 4, 4⟩]

/-- A flat round trip (both trades with zero realized P&L): the scenario
the spec describes as a flat price series with stdev of period returns 0. -/
def flatTrades : List Trade :=
  [ ⟨"2024-01-01", TradeAction.BUY, 150, 100, 0⟩,
    ⟨"2024-01-02", TradeAction.SELL, 150, 100, 0⟩ ]

/-- A trade list with one winning trade and no losing trade, used to
instantiate the profit-factor theorem's infinite branch. -/
def winOnlyTrades : List Trade :=
  [⟨"2024-05-01", TradeAction.SELL, 10, 1, 500⟩]

lemma runCurve_length (ts : List Trade) : ∀ (e m : ℚ),
    (runCurve e m ts).length = ts.length := by
  induction ts with
  | nil => intro e m; rfl
  | cons t ts ih =>
    intro e m
    simp only [runCurve, List.length_cons]
    rw [ih]

lemma runCurve_getElem? (ts : List Trade) : ∀ (e m : ℚ) (i : ℕ) (t : Trade),
    ts[i]? = some t →
    (runCurve e m ts)[i]? = some
      ⟨t.date,
       e + ((ts.map (fun x => x.pnl)).take (i + 1)).sum,
       ((List.range (i + 1)).map
          (fun j => e + ((ts.map (fun x => x.pnl)).take (j + 1)).sum)).foldl max m,
       (e + ((ts.map (fun x => x.pnl)).take (i + 1)).sum
          - ((List.range (i + 1)).map
              (fun j => e + ((ts.map (fun x => x.pnl)).take (j + 1)).sum)).foldl max m)
         / ((List.range (i + 1)).map
              (fun j => e + ((ts.map (fun x => x.pnl)).take (j + 1)).sum)).foldl max m
         * 100⟩ := by
  induction ts with
  | nil => intro e m i t h; simp at h
  | cons t0 ts ih =>
    intro e m i t h
    cases i with
    | zero =>
      simp only [List.getElem?_cons_zero, Option.some_inj] at h
      subst h
      have h2 : (List.range (0 + 1)).map
          (fun j => e + (((t0 :: ts).map (fun x => x.pnl)).take (j + 1)).sum)
          = [e + t0.pnl] := by
        simp [List.range_succ]
      simp only [runCurve, List.getElem?_cons_zero]
      rw [h2]
      simp only [List.map_cons, List.take_succ_cons, List.take_zero, List.sum_cons,
        List.sum_nil, add_zero, List.foldl_cons, List.foldl_nil]
    | succ i =>
      simp only [List.getElem?_cons_succ] at h
      have step := ih (e + t0.pnl) (max m (e + t0.pnl)) i t h
      have hcomp :
          ((fun j => e + (((t0 :: ts).map (fun x => x.pnl)).take (j + 1)).sum) ∘ Nat.succ)
          = fun j => e + t0.pnl + ((ts.map (fun x => x.pnl)).take (j + 1)).sum := by
        funext j
        simp only [Function.comp_apply, List.map_cons, List.take_succ_cons, List.sum_cons,
          Nat.succ_eq_add_one]
        ring
      have hmapeq :
          ((List.range (i + 2)).map
            (fun j => e + (((t0 :: ts).map (fun x => x.pnl)).take (j + 1)).sum))
          = (e + t0.pnl)
            :: ((List.range (i + 1)).map
                 (fun j => e + t0.pnl + ((ts.map (fun x => x.pnl)).take (j + 1)).sum)) := by
        rw [List.range_succ_eq_map (i + 1)]
        rw [List.map_cons, List.map_map, hcomp]
        simp
      simp only [runCurve, List.getElem?_cons_succ]
      rw [hmapeq]
      simp only [List.map_cons, List.take_succ_cons, List.sum_cons, List.foldl_cons]
      rw [step]
      simp only [Option.some_inj, CurveStep.mk.injEq]
      exact ⟨trivial, by ring, trivial, by ring⟩

lemma runCurve_mem (ts : List Trade) : ∀ (e m : ℚ) (s : CurveStep),
    s ∈ runCurve e m ts →
    s.equity ≤ s.maxEquity ∧ m ≤ s.maxEquity
      ∧ s.drawdown = (s.equity - s.maxEquity) / s.maxEquity * 100 := by
  induction ts with
  | nil => intro e m s h; simp [runCurve] at h
  | cons t ts ih =>
    intro e m s h
    simp only [runCurve, List.mem_cons] at h
    rcases h with h | h
    · subst h
      refine ⟨le_max_right _ _, le_max_left _ _, rfl⟩
    · obtain ⟨h1, h2, h3⟩ := ih (e + t.pnl) (max m (e + t.pnl)) s h
      exact ⟨h1, le_trans (le_max_left _ _) h2, h3⟩

lemma runCurve_maxEquity_mono (ts : List Trade) :
    ∀ (e m : ℚ) (i j : ℕ) (si sj : CurveStep), i ≤ j →
    (runCurve e m ts)[i]? = some si → (runCurve e m ts)[j]? = some sj →
    si.maxEquity ≤ sj.maxEquity := by
  induction ts with
  | nil => intro e m i j si sj hij hi hj; simp [runCurve] at hi
  | cons t ts ih =>
    intro e m i j si sj hij hi hj
    cases i with
    | zero =>
      simp only [runCurve, List.getElem?_cons_zero, Option.some_inj] at hi
      cases j with
      | zero =>
        simp only [runCurve, List.getElem?_cons_zero, Option.some_inj] at hj
        subst hi; subst hj; exact le_refl _
      | succ j =>
        simp only [runCurve, List.getElem?_cons_succ] at hj
        have hsj := runCurve_mem ts (e + t.pnl) (max m (e + t.pnl)) sj
          (List.getElem?_mem hj)
        subst hi
        exact hsj.2.1
    | succ i =>
      cases j with
      | zero => omega
      | succ j =>
        simp only [runCurve, List.getElem?_cons_succ] at hi hj
        exact ih (e + t.pnl) (max m (e + t.pnl)) i j si sj (by omega) hi hj

lemma computeSMAAux_length (rest : List Bar) : ∀ (data : List Bar) (period i : ℕ),
    (computeSMAAux data period i rest).length = rest.length := by
  induction rest with
  | nil => intro data period i; rfl
  | cons d rest ih =>
    intro data period i
    simp only [computeSMAAux, List.length_cons]
    rw [ih]

lemma computeSMAAux_getElem? (rest : List Bar) : ∀ (data : List Bar) (period i0 k : ℕ) (d : Bar),
    rest[k]? = some d →
    (computeSMAAux data period i0 rest)[k]? = some
      (if i0 + k < period - 1 then ⟨d, none⟩
       else ⟨d, some (((((data.drop (i0 + k + 1 - period)).take period).map
                        (fun b => b.Close)).sum) / (period : ℚ))⟩) := by
  induction rest with
  | nil => intro data period i0 k d h; simp at h
  | cons d0 rest ih =>
    intro data period i0 k d h
    cases k with
    | zero =>
      simp only [List.getElem?_cons_zero, Option.some_inj] at h
      subst h
      simp only [computeSMAAux, List.getElem?_cons_zero, Nat.add_zero]
    | succ k =>
      simp only [List.getElem?_cons_succ] at h
      have step := ih data period (i0 + 1) k d h
      simp only [computeSMAAux, List.getElem?_cons_succ]
      rw [step]
      have harith : i0 + 1 + k = i0 + (k + 1) := by omega
      rw [harith]

lemma computeSMA_getElem? (data : List Bar) (period i : ℕ) (d : Bar)
    (h : data[i]? = some d) :
    (computeSMA data period)[i]? = some
      (if i < period - 1 then ⟨d, none⟩
       else ⟨d, some (((((data.drop (i + 1 - period)).take period).map
                        (fun b => b.Close)).sum) / (period : ℚ))⟩) := by
  have step := computeSMAAux_getElem? data data period 0 i d h
  rw [Nat.zero_add] at step
  exact step

lemma computeSMA_map_bar_aux (rest : List Bar) : ∀ (data : List Bar) (period i : ℕ),
    (computeSMAAux data period i rest).map (fun s => s.bar) = rest := by
  induction rest with
  | nil => intro data period i; rfl
  | cons d rest ih =>
    intro data period i
    simp only [computeSMAAux, List.map_cons]
    rw [ih]
    congr 1
    split <;> rfl

lemma computeSMA_map_bar (data : List Bar) (period : ℕ) :
    (computeSMA data period).map (fun s => s.bar) = data :=
  computeSMA_map_bar_aux data data period 0

/-- C1: the Portfolio view reports `totalValue = 100000`, yet its cash plus
the sum over positions of shares times current price is `164654`; the
reported total portfolio value does not equal cash plus holdings, so the
equity identity `equity = cash + quantity * price` fails at the view's one
observable state. -/
theorem c1_portfolio_value_mismatch :
    PortfolioState.totalValue initialPortfolio = 100000
    ∧ PortfolioState.cash initialPortfolio + positionsValue initialPortfolio = 164654
    ∧ PortfolioState.totalValue initialPortfolio
        ≠ PortfolioState.cash initialPortfolio + positionsValue initialPortfolio := by
  refine ⟨rfl, ?_, ?_⟩ <;>
    norm_num [initialPortfolio, positionsValue]

/-- C2 (counterexample to the claim as stated): at index 3 of the run's
drawdown curve the stored value is `-80/201`, the percentage form, which
differs from the claimed fraction
`(equity(3) - max(equity(0..3))) / max(equity(0..3)) = -4/1005`. -/
theorem c2_counterexample :
    (drawdownData mockTrades)[3]? = some ⟨"2024-02-10", -80 / 201⟩
    ∧ (specEquityAt mockTrades 3 - specPeakAt mockTrades 3) / specPeakAt mockTrades 3
        = -4 / 1005
    ∧ ((-80 : ℚ) / 201) ≠ -4 / 1005 := by
  refine ⟨?_, ?_, by norm_num⟩
  · simp only [drawdownData, backtestSteps, mockTrades, runCurve, List.map_cons,
      List.getElem?_cons_succ, List.getElem?_cons_zero, Option.some_inj,
      DrawdownPoint.mk.injEq]
    norm_num [max_def]
  · norm_num [specEquityAt, specPeakAt, mockTrades, List.range_succ, max_def]

/-- C2 (amended): every value of the drawdown curve equals
`(equity(t) - peak(t)) / peak(t) * 100` — the claimed fraction scaled to a
percentage — where `peak(t)` is the maximum of the initial capital 100000
and the equity values up to `t`; every value of the curve is `≤ 0`; and the
value at the run's initial bar is 0. -/
theorem c2_drawdown_percent_bounds :
    (∀ (trades : List Trade) (i : ℕ) (d : DrawdownPoint),
        (drawdownData trades)[i]? = some d →
        d.drawdown
            = (specEquityAt trades i - specPeakAt trades i) / specPeakAt trades i * 100
          ∧ d.drawdown ≤ 0)
    ∧ (drawdownData mockTrades)[0]? = some ⟨"2024-01-15", 0⟩ := by
  constructor
  · intro trades i d h
    rw [drawdownData, backtestSteps, List.getElem?_map] at h
    obtain ⟨s, hs, hd⟩ := Option.map_eq_some'.mp h
    obtain ⟨h1, h2, h3⟩ := runCurve_mem trades 100000 100000 s (List.getElem?_mem hs)
    have hlen : i < (runCurve (100000 : ℚ) 100000 trades).length := by
      by_contra hc
      push_neg at hc
      rw [List.getElem?_eq_none hc] at hs
      exact Option.noConfusion hs
    rw [runCurve_length] at hlen
    have ht : trades[i]? = some trades[i] := List.getElem?_eq_getElem hlen
    have hstep := runCurve_getElem? trades 100000 100000 i trades[i] ht
    rw [hs] at hstep
    have hse := Option.some_inj.mp hstep
    have hdd : d.drawdown = s.drawdown := by rw [← hd]
    constructor
    · rw [hdd, hse]
      rfl
    · have hp : (0 : ℚ) < s.maxEquity := lt_of_lt_of_le (by norm_num) h2
      have hnum : s.equity - s.maxEquity ≤ 0 := sub_nonpos.mpr h1
      have hq := div_nonpos_of_nonpos_of_nonneg hnum (le_of_lt hp)
      rw [hdd, h3]
      exact mul_nonpos_of_nonpos_of_nonneg hq (by norm_num)
  · simp only [drawdownData, backtestSteps, mockTrades, runCurve, List.map_cons,
      List.getElem?_cons_zero, Option.some_inj, DrawdownPoint.mk.injEq]
    norm_num [max_def]

/-- C2 witness: the amended theorem applied to the run's own trade list at
index 3 evaluates the drawdown value to `-80/201` and certifies it
nonpositive. -/
theorem c2_witness :
    (⟨"2024-02-10", -80 / 201⟩ : DrawdownPoint).drawdown
        = (specEquityAt mockTrades 3 - specPeakAt mockTrades 3)
            / specPeakAt mockTrades 3 * 100
      ∧ (⟨"2024-02-10", -80 / 201⟩ : DrawdownPoint).drawdown ≤ 0 :=
  c2_drawdown_percent_bounds.1 mockTrades 3 ⟨"2024-02-10", -80 / 201⟩
    (by simp only [drawdownData, backtestSteps, mockTrades, runCurve, List.map_cons,
          List.getElem?_cons_succ, List.getElem?_cons_zero, Option.some_inj,
          DrawdownPoint.mk.injEq]
        norm_num [max_def])

/-- C10: the equity curve has exactly one point per trade; the equity at
point `i` is the initial capital 100000 plus the prefix sum of the `pnl`
fields of trades `0 .. i`; the running peak used for drawdown is the
maximum of 100000 and all equity values up to `i`; and that peak is
monotonically non-decreasing along the curve. -/
theorem c10_equity_curve_prefix_sums :
    ∀ (trades : List Trade),
    (equityData trades).length = trades.length
    ∧ (∀ (i : ℕ) (p : EquityPoint), (equityData trades)[i]? = some p →
        EquityPoint.equity p = 100000 + ((trades.map (fun t => t.pnl)).take (i + 1)).sum)
    ∧ (∀ (i : ℕ) (s : CurveStep), (backtestSteps trades)[i]? = some s →
        CurveStep.maxEquity s
          = ((List.range (i + 1)).map (specEquityAt trades)).foldl max 100000)
    ∧ (∀ (i j : ℕ) (si sj : CurveStep), i ≤ j →
        (backtestSteps trades)[i]? = some si → (backtestSteps trades)[j]? = some sj →
        CurveStep.maxEquity si ≤ CurveStep.maxEquity sj) := by
  intro trades
  refine ⟨?_, ?_, ?_, ?_⟩
  · rw [equityData, List.length_map, backtestSteps, runCurve_length]
  · intro i p h
    rw [equityData, backtestSteps, List.getElem?_map] at h
    obtain ⟨s, hs, hp⟩ := Option.map_eq_some'.mp h
    have hlen : i < (runCurve (100000 : ℚ) 100000 trades).length := by
      by_contra hc
      push_neg at hc
      rw [List.getElem?_eq_none hc] at hs
      exact Option.noConfusion hs
    rw [runCurve_length] at hlen
    have ht : trades[i]? = some trades[i] := List.getElem?_eq_getElem hlen
    have hstep := runCurve_getElem? trades 100000 100000 i trades[i] ht
    rw [hs] at hstep
    have hse := Option.some_inj.mp hstep
    rw [← hp, hse]
  · intro i s h
    rw [backtestSteps] at h
    have hlen : i < (runCurve (100000 : ℚ) 100000 trades).length := by
      by_contra hc
      push_neg at hc
      rw [List.getElem?_eq_none hc] at h
      exact Option.noConfusion h
    rw [runCurve_length] at hlen
    have ht : trades[i]? = some trades[i] := List.getElem?_eq_getElem hlen
    have hstep := runCurve_getElem? trades 100000 100000 i trades[i] ht
    rw [h] at hstep
    have hse := Option.some_inj.mp hstep
    rw [hse]
    rfl
  · intro i j si sj hij hi hj
    rw [backtestSteps] at hi hj
    exact runCurve_maxEquity_mono trades 100000 100000 i j si sj hij hi hj

/-- C10 witness: the theorem applied to the run's own trade list at curve
index 1 gives the prefix-sum form of the second equity point. -/
theorem c10_witness :
    EquityPoint.equity (⟨"2024-01-20", 100500⟩ : EquityPoint)
      = 100000 + ((mockTrades.map (fun t => t.pnl)).take 2).sum :=
  (c10_equity_curve_prefix_sums mockTrades).2.1 1 ⟨"2024-01-20", 100500⟩
    (by simp only [equityData, backtestSteps, mockTrades, runCurve, List.map_cons,
          List.getElem?_cons_succ, List.getElem?_cons_zero, Option.some_inj,
          EquityPoint.mk.injEq]
        norm_num [max_def])

/-- C3: for a period `p` with `1 ≤ p ≤ length`, `computeSMA` preserves the
length, leaves the `sma` entry empty (`null`) on the first `p - 1` points,
and at every index `i ≥ p - 1` stores the bar together with the arithmetic
mean of the trailing `p` closes ending at index `i`. -/
theorem c3_computeSMA_sliding_mean :
    ∀ (data : List Bar) (period : ℕ), 1 ≤ period → period ≤ data.length →
    (computeSMA data period).length = data.length
    ∧ (∀ (i : ℕ) (s : SmaPoint), i < period - 1 → (computeSMA data period)[i]? = some s →
        SmaPoint.sma s = none)
    ∧ (∀ (i : ℕ) (b : Bar), period - 1 ≤ i → data[i]? = some b →
        (computeSMA data period)[i]? = some
          ⟨b, some ((((data.map (fun x => x.Close)).take (i + 1)).drop (i + 1 - period)).sum
                     / (period : ℚ))⟩) := by
  intro data period h1 h2
  refine ⟨by rw [computeSMA, computeSMAAux_length], ?_, ?_⟩
  · intro i s hi h
    rw [computeSMA] at h
    have hlen : i < data.length := by
      by_contra hc
      push_neg at hc
      have hc2 : (computeSMAAux data period 0 data).length ≤ i := by
        rw [computeSMAAux_length]; exact hc
      rw [List.getElem?_eq_none hc2] at h
      exact Option.noConfusion h
    have hd : data[i]? = some data[i] := List.getElem?_eq_getElem hlen
    have hstep := computeSMA_getElem? data period i data[i] hd
    rw [computeSMA, h] at hstep
    have hse := Option.some_inj.mp hstep
    rw [hse, if_pos hi]
  · intro i b hi hd
    have hstep := computeSMA_getElem? data period i b hd
    rw [hstep, if_neg (by omega)]
    have hlist :
        ((data.drop (i + 1 - period)).take period).map (fun x => x.Close)
        = ((data.map (fun x => x.Close)).take (i + 1)).drop (i + 1 - period) := by
      rw [List.drop_take]
      have harith : i + 1 - (i + 1 - period) = period := by omega
      rw [harith, List.map_take, List.map_drop]
    rw [hlist]

/-- C3 witness: the theorem applied to a three-bar series with period 2
evaluates the point at index 1 to the bar plus the mean of its two closes. -/
theorem c3_witness :
    (computeSMA smaBars 2)[1]? = some
      ⟨⟨"b", 2, 2, 2, 2⟩, some ((((smaBars.map (fun x => x.Close)).take 2).drop 0).sum
                                 / (2 : ℚ))⟩ :=
  (c3_computeSMA_sliding_mean smaBars 2 (by norm_num) (by norm_num [smaBars])).2.2 1
    ⟨"b", 2, 2, 2, 2⟩ (by norm_num) rfl

/-- C4 (counterexample to the claim as stated): on a one-bar series with
period 20 `computeSMA` raises nothing — it returns the same-length result
whose only `sma` entry is `null`, exactly the all-undefined result the
claim says is never produced. -/
theorem c4_counterexample :
    computeSMA [⟨"x", 5, 5, 5, 5⟩] 20 = [⟨⟨"x", 5, 5, 5, 5⟩, none⟩] :=
  rfl

/-- C4 (amended): when the input is shorter than the period, `computeSMA`
does not fail: it returns a result of the same length whose every `sma`
entry is `null`, and (being a pure map producing fresh objects via spread)
it leaves the input series unchanged. -/
theorem c4_short_input_returns_all_null :
    ∀ (data : List Bar) (period : ℕ), data.length < period →
    (computeSMA data period).length = data.length
    ∧ (∀ s ∈ computeSMA data period, SmaPoint.sma s = none)
    ∧ (computeSMA data period).map (fun s => s.bar) = data := by
  intro data period h
  refine ⟨by rw [computeSMA, computeSMAAux_length], ?_, computeSMA_map_bar data period⟩
  intro s hs
  obtain ⟨i, hi⟩ := List.mem_iff_getElem?.mp hs
  rw [computeSMA] at hi
  have hlen : i < data.length := by
    by_contra hc
    push_neg at hc
    have hc2 : (computeSMAAux data period 0 data).length ≤ i := by
      rw [computeSMAAux_length]; exact hc
    rw [List.getElem?_eq_none hc2] at hi
    exact Option.noConfusion hi
  have hd : data[i]? = some data[i] := List.getElem?_eq_getElem hlen
  have hstep := computeSMA_getElem? data period i data[i] hd
  rw [computeSMA, hi] at hstep
  have hse := Option.some_inj.mp hstep
  rw [hse, if_pos (by omega)]

/-- C4 witness: the amended theorem applied to a one-bar series with
period 20. -/
theorem c4_witness :
    (computeSMA [⟨"x", 5, 5, 5, 5⟩] 20).length = 1
    ∧ (∀ s ∈ computeSMA [⟨"x", 5, 5, 5, 5⟩] 20, SmaPoint.sma s = none) :=
  ⟨(c4_short_input_returns_all_null [⟨"x", 5, 5, 5, 5⟩] 20 (by norm_num)).1,
   (c4_short_input_returns_all_null [⟨"x", 5, 5, 5, 5⟩] 20 (by norm_num)).2.1⟩

/-- C9: `computeSMA` is a pure map: projecting the carried bar out of each
output element returns the input list itself, so every field of input
element `i` reappears unchanged in output element `i`, the only addition
being the `sma` field; the input list is untouched. -/
theorem c9_computeSMA_preserves_input :
    ∀ (data : List Bar) (period : ℕ),
    (computeSMA data period).map (fun s => s.bar) = data :=
  fun data period => computeSMA_map_bar data period

lemma jsOrZero_fin (q : ℚ) : jsOrZero (JsNum.fin q) = JsNum.fin q := by
  by_cases h : q = 0
  · simp [jsOrZero, h]
  · simp [jsOrZero, h]

lemma jsDiv_zero_pos (a : ℚ) (h : 0 < a) : jsDiv a 0 = JsNum.posInf := by
  simp [jsDiv, h]

/-- C5 (counterexample to the claim as stated): the run reports a win rate
of `100/3` (33.3%), computed over all 6 trades, while the claim's value —
2 winning trades over 3 closing (SELL) trades — is `2/3` (66.7%); the two
disagree whether read as a fraction or as a percentage. -/
theorem c5_counterexample :
    BacktestResults.winRate (mkBacktestResults mockTrades) = JsNum.fin (100 / 3)
    ∧ (mockTrades.filter (fun t => 0 < t.pnl)).length = 2
    ∧ (mockTrades.filter (fun t => t.action = TradeAction.SELL)).length = 3
    ∧ ((100 : ℚ) / 3) ≠ 2 / 3
    ∧ ((100 : ℚ) / 3) ≠ 2 / 3 * 100 := by
  refine ⟨?_, ?_, by decide, by norm_num, by norm_num⟩
  · simp only [mkBacktestResults, jsDiv, jsMulFin]
    norm_num [mockTrades, List.filter_cons]
  · norm_num [mockTrades, List.filter_cons]

/-- C5 (amended): for every non-empty trade list, the reported win rate is
the count of trades with positive P&L divided by the count of all trades —
opening trades included in the denominator — scaled to a percentage. -/
theorem c5_winRate_counts_all_trades :
    ∀ (trades : List Trade), trades ≠ [] →
    BacktestResults.winRate (mkBacktestResults trades)
      = JsNum.fin (((trades.filter (fun t => 0 < t.pnl)).length : ℚ)
                    / (trades.length : ℚ) * 100) := by
  intro trades h
  have h0 : trades.length ≠ 0 := Nat.pos_iff_ne_zero.mp (List.length_pos.mpr h)
  have hlen : ((trades.length : ℚ)) ≠ 0 := Nat.cast_ne_zero.mpr h0
  simp only [mkBacktestResults, jsDiv, if_neg hlen, jsMulFin]

/-- C5 witness: the amended theorem applied to the run's own trade list
evaluates the reported win rate to `100/3`. -/
theorem c5_witness :
    BacktestResults.winRate (mkBacktestResults mockTrades) = JsNum.fin (100 / 3) := by
  rw [c5_winRate_counts_all_trades mockTrades (by simp [mockTrades])]
  norm_num [mockTrades, List.filter_cons]

/-- C6 (counterexample to the claim as stated): on a flat run — both trades
with zero realized P&L, so the equity curve is flat and the population
variance (hence the stdev) of the period returns is 0 — the reported
Sharpe ratio is still the number `1.45`, not `null`. -/
theorem c6_counterexample :
    specPopVariance (specPeriodReturns ((equityData flatTrades).map
        (fun p => p.equity))) = 0
    ∧ BacktestResults.sharpeRatio (mkBacktestResults flatTrades) = some (29 / 20)
    ∧ BacktestResults.sharpeRatio (mkBacktestResults flatTrades) ≠ none := by
  refine ⟨?_, rfl, by simp [mkBacktestResults]⟩
  norm_num [equityData, backtestSteps, runCurve, flatTrades, specPeriodReturns,
    specPopVariance, specMean, max_def]

/-- C6 (amended): the reported Sharpe ratio is the constant `1.45`
regardless of the trade list — it is never computed from period returns
and never `null`, even when the stdev of period returns is 0. -/
theorem c6_sharpe_is_constant :
    ∀ (trades : List Trade),
    BacktestResults.sharpeRatio (mkBacktestResults trades) = some (29 / 20) :=
  fun _ => rfl

/-- C7 (counterexample to the claim as stated): the run reports
`totalReturn = 1600`, the absolute currency difference, which is not the
claimed dimensionless fraction `(101600 - 100000) / 100000 = 0.016`. -/
theorem c7_counterexample :
    BacktestResults.totalReturn (mkBacktestResults mockTrades) = 1600
    ∧ BacktestResults.finalCapital (mkBacktestResults mockTrades) = 101600
    ∧ ((1600 : ℚ)) ≠ (101600 - 100000) / 100000 := by
  refine ⟨?_, ?_, by norm_num⟩ <;>
    norm_num [mkBacktestResults, finalEquity, mockTrades, List.foldl_cons]

/-- C7 (amended): the reported `totalReturn` is the absolute currency
difference `finalCapital - initialCapital`; the dimensionless form scaled
to a percentage is reported separately as `totalReturnPercentage`. -/
theorem c7_totalReturn_is_absolute :
    ∀ (trades : List Trade),
    BacktestResults.totalReturn (mkBacktestResults trades)
        = BacktestResults.finalCapital (mkBacktestResults trades)
          - BacktestResults.initialCapital (mkBacktestResults trades)
    ∧ BacktestResults.totalReturnPercentage (mkBacktestResults trades)
        = (BacktestResults.finalCapital (mkBacktestResults trades)
            - BacktestResults.initialCapital (mkBacktestResults trades))
          / BacktestResults.initialCapital (mkBacktestResults trades) * 100 :=
  fun _ => ⟨rfl, rfl⟩

/-- C8: whenever there is at least one losing trade (so the losing P&L sum
is nonzero), the reported profit factor is the finite ratio
`sum(winning P&L) / abs(sum(losing P&L))`; and whenever there is a winning
trade but no losing trade, it is reported as `Infinity` — not an error and
not 0. -/
theorem c8_profitFactor_ratio_or_inf :
    ∀ (trades : List Trade),
    (((trades.filter (fun t => t.pnl < 0)).map (fun t => t.pnl)).sum ≠ 0 →
      BacktestResults.profitFactor (mkBacktestResults trades)
        = JsNum.fin (((trades.filter (fun t => 0 < t.pnl)).map (fun t => t.pnl)).sum
            / |((trades.filter (fun t => t.pnl < 0)).map (fun t => t.pnl)).sum|))
    ∧ ((∃ t ∈ trades, 0 < t.pnl) → (∀ t ∈ trades, ¬ t.pnl < 0) →
      BacktestResults.profitFactor (mkBacktestResults trades) = JsNum.posInf) := by
  intro trades
  have hw : (0 : ℚ) ≤ ((trades.filter (fun t => 0 < t.pnl)).map (fun t => t.pnl)).sum := by
    apply List.sum_nonneg
    intro x hx
    obtain ⟨t, ht, rfl⟩ := List.mem_map.mp hx
    have hmem := List.mem_filter.mp ht
    have hpos := of_decide_eq_true hmem.2
    linarith
  constructor
  · intro hl
    simp only [mkBacktestResults, jsDiv, if_neg hl, jsAbs, jsOrZero_fin]
    rw [abs_div, abs_of_nonneg hw]
  · intro hex hnone
    have hfil : trades.filter (fun t => t.pnl < 0) = [] := by
      rw [List.filter_eq_nil_iff]
      intro a ha
      simp only [decide_eq_true_eq]
      exact hnone a ha
    obtain ⟨t, ht, htp⟩ := hex
    have htw : t ∈ trades.filter (fun t => 0 < t.pnl) :=
      List.mem_filter.mpr ⟨ht, by simpa using htp⟩
    have hwpos : (0 : ℚ)
        < ((trades.filter (fun t => 0 < t.pnl)).map (fun t => t.pnl)).sum := by
      apply List.sum_pos
      · intro x hx
        obtain ⟨u, hu, rfl⟩ := List.mem_map.mp hx
        have hmem := List.mem_filter.mp hu
        exact of_decide_eq_true hmem.2
      · intro hc
        rw [List.map_eq_nil_iff] at hc
        rw [hc] at htw
        exact List.not_mem_nil t htw
    simp only [mkBacktestResults, hfil, List.map_nil, List.sum_nil]
    rw [jsDiv_zero_pos _ hwpos]
    rfl

/-- C8 witness: the theorem's finite branch applied to the run's own trade
list gives profit factor 5, and its infinite branch applied to a
winners-only list gives `Infinity`. -/
theorem c8_witness :
    BacktestResults.profitFactor (mkBacktestResults mockTrades) = JsNum.fin 5
    ∧ BacktestResults.profitFactor (mkBacktestResults winOnlyTrades) = JsNum.posInf := by
  constructor
  · have h := (c8_profitFactor_ratio_or_inf mockTrades).1
      (by norm_num [mockTrades, List.filter_cons])
    rw [h]
    norm_num [mockTrades, List.filter_cons]
  · exact (c8_profitFactor_ratio_or_inf winOnlyTrades).2
      ⟨⟨"2024-05-01", TradeAction.SELL, 10, 1, 500⟩, by simp [winOnlyTrades], by norm_num⟩
      (by intro t ht
          simp only [winOnlyTrades, List.mem_singleton] at ht
          subst ht
          norm_num)
